import Mathlib

/-!
Shallow embedding of the iris web-framework core (router trie, route,
context handler-chain control, response-writer stack, status-code
handlers), with theorems checking the natural-language specification
against the code.

Go `int` values are modelled as `Int` (the sentinels `-1`, `0` matter),
byte strings as `String`/`List Char`, Go maps and the ordered parameter
store as association lists, and handler functions as opaque numeric
tokens whose invocation is recorded in an event trace (a handler body is
arbitrary user code, so only the dispatch mechanics are modelled).
-/

namespace Iris

/-! ## Go `strings` helpers used by the embedded code -/

/-- Model of Go `strings.Split(s, sep)` for a one-character separator,
working on the character list of the string. `Split("", sep) = [""]`. -/
def splitChar (sep : Char) : List Char → List String
  | [] => [""]
  | c :: rest =>
    if c = sep then "" :: splitChar sep rest
    else
      match splitChar sep rest with
      | [] => [String.mk [c]]
      | t :: ts => String.mk (c :: t.data) :: ts

/-- Model of Go `strings.Join(parts, sep)` for a one-character separator. -/
def joinChar (sep : Char) : List String → List Char
  | [] => []
  | [s] => s.data
  | s :: t :: ts => s.data ++ sep :: joinChar sep (t :: ts)

/-- Index of the first occurrence of a character, Go `strings.Index(s, c)`
for a one-character needle (`none` for Go's `-1`). -/
def idxOfChar (c : Char) : List Char → Option Nat
  | [] => none
  | d :: rest =>
    if d = c then some 0
    else match idxOfChar c rest with
         | some i => some (i + 1)
         | none => none

/-- Whether a character occurs in the string, Go `strings.Contains` for a
one-character needle. -/
def containsChar (c : Char) (s : List Char) : Bool :=
  (idxOfChar c s).isSome

/-- Go `s[k:]`: the suffix of the string past the first `k` bytes. -/
def strDrop (s : String) (k : Nat) : String :=
  String.mk (s.data.drop k)

/-- Model of Go `strings.Replace(s, "%v", repl, 1)`: replace the first
occurrence of the two-character needle `%v`. -/
def replacePctV : List Char → List Char → List Char
  | [], _ => []
  | '%' :: 'v' :: rest, repl => repl ++ rest
  | c :: rest, repl => c :: replacePctV rest repl

/-! ## Route (core/router/route.go)

Handlers are opaque tokens (`Nat`). The `tmpl` field (the parsed macro
template) is owned by the external macro package and is not read by the
operations embedded here, so it is not modelled. -/

structure Route where
  Name : String
  Method : String
  methodBckp : String
  Subdomain : String
  beginHandlers : List Nat
  Handlers : List Nat
  MainHandlerName : String
  doneHandlers : List Nat
  Path : String
  FormattedPath : String
  deriving DecidableEq, Repr

/-- Route.BuildHandlers (route.go lines 163-173): splice the begin
handlers in front of `Handlers` and the done handlers after it, then
truncate both temporary lists. -/
def Route.BuildHandlers (r : Route) : Route :=
  let r1 :=
    if r.beginHandlers.length > 0 then
      { r with Handlers := r.beginHandlers ++ r.Handlers, beginHandlers := [] }
    else r
  if r1.doneHandlers.length > 0 then
    { r1 with Handlers := r1.Handlers ++ r1.doneHandlers, doneHandlers := [] }
  else r1

/-- formatPath (route.go lines 222-248): replace every dynamic path part
(starting with `:` or `*`) by the placeholder `%v`, dropping empty parts. -/
def formatPath (path : String) : String :=
  if containsChar ':' path.data || containsChar '*' path.data then
    let parts := splitChar '/' path.data
    let formattedParts := (parts.filter (fun part => part.data.length ≠ 0)).map
      (fun part => if part.data.headD ' ' = ':' || part.data.headD ' ' = '*' then "%v" else part)
    String.mk ('/' :: joinChar '/' formattedParts)
  else path

/-- Model of Go `fmt.Sprintf(format, arg)` with a single string argument
against a format built by `formatPath` (at most one `%v` verb): the first
`%v` is replaced by the argument. -/
def sprintf1 (format : String) (arg : String) : String :=
  String.mk (replacePctV format.data arg.data)

/-- Route.ResolvePath (route.go lines 272-289). The wildcard branch fires
only when the registered path's last byte is `*`; otherwise each argument
replaces the first remaining `%v` in the formatted path. -/
def Route.ResolvePath (r : Route) (args : List String) : String :=
  let rpath := r.Path
  let formattedPath := r.FormattedPath
  if rpath = formattedPath then rpath
  else if rpath.data.getLast? = some '*' then
    let parameter := String.mk (joinChar '/' args)
    sprintf1 formattedPath parameter
  else
    args.foldl (fun acc s => String.mk (replacePctV acc.data s.data)) formattedPath

/-! ## Base response writer (response_writer.go, src/unnamed/part_000)

The `responseWriter` struct wraps the native `http.ResponseWriter`; the
native writer is modelled as an event sink: calls reaching it are
recorded in a trace of `WEv` events. -/

/-- Events observed by the native `http.ResponseWriter` underneath the
base writer (plus the pre-flush callback invocation). -/
inductive WEv where
  | nativeWriteHeader (code : Int)
  | nativeWrite (n : Nat)
  | beforeFlushCall
  deriving DecidableEq, Repr

/-- NoWritten sentinel (`written` before anything was sent). -/
def NoWritten : Int := -1

/-- StatusCodeWritten sentinel (only the status code was sent). -/
def StatusCodeWritten : Int := 0

/-- defaultStatusCode (`http.StatusOK`). -/
def defaultStatusCode : Int := 200

/-- State of the base `responseWriter`: deferred status code, total
written counter, and whether a single pre-flush callback is registered
(the callback body is opaque; its invocation is traced). -/
structure RW where
  statusCode : Int
  written : Int
  beforeFlush : Bool
  deriving DecidableEq, Repr

/-- responseWriter.BeginResponse: reset the fields for a new request. -/
def RW.BeginResponse : RW :=
  { statusCode := defaultStatusCode, written := NoWritten, beforeFlush := false }

/-- responseWriter.WriteHeader: only records the deferred status code. -/
def RW.WriteHeader (w : RW) (code : Int) : RW :=
  { w with statusCode := code }

/-- responseWriter.tryWriteHeader: before any write, once, send the
deferred status to the native writer and move `written` off `NoWritten`. -/
def RW.tryWriteHeader (w : RW) : RW × List WEv :=
  if w.written = NoWritten then
    ({ w with written := StatusCodeWritten }, [WEv.nativeWriteHeader w.statusCode])
  else (w, [])

/-- responseWriter.Write for a body chunk of `n` bytes (the native write
returns `n`). -/
def RW.Write (w : RW) (n : Nat) : RW × List WEv :=
  let (w1, evs) := w.tryWriteHeader
  ({ w1 with written := w1.written + n }, evs ++ [WEv.nativeWrite n])

/-- responseWriter.WriteString for a string of `n` bytes. -/
def RW.WriteString (w : RW) (n : Nat) : RW × List WEv :=
  let (w1, evs) := w.tryWriteHeader
  ({ w1 with written := w1.written + n }, evs ++ [WEv.nativeWrite n])

/-- responseWriter.SetBeforeFlush: register the unique pre-flush callback. -/
def RW.SetBeforeFlush (w : RW) : RW :=
  { w with beforeFlush := true }

/-- responseWriter.FlushResponse: run the pre-flush callback if any, then
ensure the status code is sent. -/
def RW.FlushResponse (w : RW) : RW × List WEv :=
  let pre := if w.beforeFlush then [WEv.beforeFlushCall] else []
  let (w1, evs) := w.tryWriteHeader
  (w1, pre ++ evs)

/-- The operations a request's handlers may perform on the base writer
(the alphabet of one request's interaction, after `BeginResponse`). -/
inductive WOp where
  | writeHeader (code : Int)
  | write (n : Nat)
  | writeString (n : Nat)
  | flushResponse
  | setBeforeFlush
  deriving DecidableEq, Repr

/-- Run one operation on the base writer. -/
def runWOp (w : RW) (op : WOp) : RW × List WEv :=
  match op with
  | WOp.writeHeader code => (w.WriteHeader code, [])
  | WOp.write n => w.Write n
  | WOp.writeString n => w.WriteString n
  | WOp.flushResponse => w.FlushResponse
  | WOp.setBeforeFlush => (w.SetBeforeFlush, [])

/-- Run a sequence of operations, accumulating the native event trace. -/
def runWOps (w : RW) : List WOp → RW × List WEv
  | [] => (w, [])
  | op :: ops =>
    let (w1, evs) := runWOp w op
    let (w2, evs2) := runWOps w1 ops
    (w2, evs ++ evs2)

/-- Whether an operation is a body write or an explicit flush (the
operations that trigger `tryWriteHeader`). -/
def transmitsStatus : WOp → Bool
  | WOp.write _ => true
  | WOp.writeString _ => true
  | WOp.flushResponse => true
  | _ => false

/-- Number of native `WriteHeader` calls in a trace. -/
def countWriteHeader (evs : List WEv) : Nat :=
  (evs.filter (fun e => match e with | WEv.nativeWriteHeader _ => true | _ => false)).length

/-! ## Gzip response writer (gzip_response_writer.go, src/unnamed/part_000)

The `http.Header` map of the underlying writer is modelled as a list of
(key, value) pairs; `Header().Add` appends a pair. Body bytes are
abstracted to byte counts (the compression itself is the external
klauspost gzip library); writes reaching the underlying writer are
traced. -/

/-- Header map: one entry per added (key, value) pair, in order. -/
abbrev Headers := List (String × String)

/-- http.Header.Add: append the pair. -/
def Headers.add (h : Headers) (k v : String) : Headers :=
  List.append h [(k, v)]

/-- Whether some value is recorded under the key. -/
def Headers.containsKey (h : Headers) (k : String) : Bool :=
  (List.filter (fun p : String × String => p.1 = k) h).length > 0

/-- Whether the exact (key, value) pair is present. -/
def Headers.containsPair (h : Headers) (k v : String) : Bool :=
  decide ((k, v) ∈ h)

/-- All values recorded under a key (Go `Header()[k]`). -/
def Headers.valuesOf (h : Headers) (k : String) : List String :=
  (List.filter (fun p : String × String => p.1 = k) h).map (fun p => p.2)

/-- Events emitted towards the underlying response writer by the gzip
layer. -/
inductive GEv where
  | passWrite (n : Nat)
  | gzipWrite (n : Nat)
  | underlyingFlush
  deriving DecidableEq, Repr

/-- GzipResponseWriter state: the underlying writer's header map, the
buffered uncompressed chunk count, and the pass-through bit. -/
structure GzipResponseWriter where
  headers : Headers
  chunks : Nat
  disabled : Bool
  deriving DecidableEq, Repr

/-- AddGzipHeaders (part_000 lines 204-211): add `Vary: Accept-Encoding`
and `Content-Encoding: gzip` on the underlying writer's header map. -/
def AddGzipHeaders (h : Headers) : Headers :=
  (h.add "Vary" "Accept-Encoding").add "Content-Encoding" "gzip"

/-- GzipResponseWriter.Write: append to the internal chunk buffer and
return the uncompressed length; nothing is sent yet. -/
def GzipResponseWriter.Write (w : GzipResponseWriter) (n : Nat) : GzipResponseWriter × Nat :=
  ({ w with chunks := w.chunks + n }, n)

/-- GzipResponseWriter.WriteNow (part_000 lines 170-202): pass through
when disabled; otherwise add the gzip headers and send the compressed
data. The commented-out `Header().Del(contentLengthHeaderKey)` in the
source is disabled, so `Content-Length` is never removed here. -/
def GzipResponseWriter.WriteNow (w : GzipResponseWriter) (n : Nat) :
    GzipResponseWriter × List GEv :=
  if w.disabled then (w, [GEv.passWrite n])
  else ({ w with headers := AddGzipHeaders w.headers }, [GEv.gzipWrite n])

/-- GzipResponseWriter.FlushResponse (part_000 lines 216-219): WriteNow
the buffered chunks, then flush the underlying writer. -/
def GzipResponseWriter.FlushResponse (w : GzipResponseWriter) :
    GzipResponseWriter × List GEv :=
  let (w1, evs) := w.WriteNow w.chunks
  (w1, evs ++ [GEv.underlyingFlush])

/-- GzipResponseWriter.ResetBody: clear the buffer without sending. -/
def GzipResponseWriter.ResetBody (w : GzipResponseWriter) : GzipResponseWriter :=
  { w with chunks := 0 }

/-- GzipResponseWriter.Disable: switch subsequent output to pass-through. -/
def GzipResponseWriter.Disable (w : GzipResponseWriter) : GzipResponseWriter :=
  { w with disabled := true }

/-! ## Response recorder (used by ErrorCodeHandler.Fire)

The `ResponseRecorder` implementation (response_recorder.go) is not part
of the provided sources; only its callers are. -/

/-- Modelled from the spec: the recording writer "buffers headers,
status, body until an explicit flush" with meaningful `reset-headers` /
`reset-body` (response_recorder.go is not under src/). Body bytes are
abstracted to a count. -/
structure ResponseRecorder where
  statusCode : Int
  headers : Headers
  body : Nat
  deriving DecidableEq, Repr

/-- Modelled from the spec: the recorder's WriteHeader records the status
in the buffered snapshot. -/
def ResponseRecorder.WriteHeader (r : ResponseRecorder) (code : Int) : ResponseRecorder :=
  { r with statusCode := code }

/-- Modelled from the spec: reset the buffered headers. -/
def ResponseRecorder.ClearHeaders (r : ResponseRecorder) : ResponseRecorder :=
  { r with headers := [] }

/-- Modelled from the spec: reset the buffered body. -/
def ResponseRecorder.ResetBody (r : ResponseRecorder) : ResponseRecorder :=
  { r with body := 0 }

/-! ## Context handler-chain control (context/context.go)

The context is generic in the type `ω` of its current response writer.
Handler invocations are traced as `HEv.invoke` events. -/

/-- Handler-chain events: invocation of a handler token. -/
inductive HEv where
  | invoke (h : Nat)
  deriving DecidableEq, Repr

/-- Per-request context state touched by the chain-control operations. -/
structure Ctx (ω : Type) where
  handlers : List Nat
  currentHandlerIndex : Int
  writer : ω
  deriving DecidableEq, Repr

/-- stopExecutionIndex sentinel. -/
def stopExecutionIndex : Int := -1

/-- context.IsStopped: the cursor is `-1`. -/
def Ctx.IsStopped {ω : Type} (c : Ctx ω) : Bool :=
  c.currentHandlerIndex = stopExecutionIndex

/-- context.StopExecution: set the cursor to `-1`. -/
def Ctx.StopExecution {ω : Type} (c : Ctx ω) : Ctx ω :=
  { c with currentHandlerIndex := stopExecutionIndex }

/-- context.HandlerIndex (context.go lines 1293-1300): set the cursor to
`n` if `n` is in range, returning the new index; otherwise leave it
unchanged and return the current index. -/
def Ctx.HandlerIndex {ω : Type} (c : Ctx ω) (n : Int) : Ctx ω × Int :=
  if n < 0 ∨ n > (c.handlers.length : Int) - 1 then (c, c.currentHandlerIndex)
  else ({ c with currentHandlerIndex := n }, n)

/-- context.Skip: advance the cursor without invoking. -/
def Ctx.Skip {ω : Type} (c : Ctx ω) : Ctx ω :=
  (c.HandlerIndex (c.currentHandlerIndex + 1)).1

/-- List indexing by a Go `int`. A negative index makes the Go program
panic; it is modelled as `none` and is unreachable from the states the
theorems quantify over. -/
def intGet (l : List Nat) (i : Int) : Option Nat :=
  if h : 0 ≤ i ∧ i < (l.length : Int) then
    some (l.get ⟨i.toNat, by
      rcases h with ⟨h1, h2⟩
      omega
      ⟩)
  else none

/-- context.NextHandler (context.go lines 1436-1446): the next handler of
the chain, or `none` when stopped or exhausted. -/
def Ctx.NextHandler {ω : Type} (c : Ctx ω) : Option Nat :=
  if c.IsStopped then none
  else
    let nextIndex := c.currentHandlerIndex + 1
    if nextIndex < (c.handlers.length : Int) then intGet c.handlers nextIndex
    else none

/-- context.Do / Do(ctx, handlers): replace the chain and execute its
first handler (no-op on an empty chain). -/
def Ctx.Do {ω : Type} (c : Ctx ω) (handlers : List Nat) : Ctx ω × List HEv :=
  match handlers with
  | [] => (c, [])
  | h :: _ => ({ c with handlers := handlers }, [HEv.invoke h])

/-- context.StatusCode: record the status on the writer (deferred). -/
def Ctx.StatusCode (c : Ctx RW) (code : Int) : Ctx RW :=
  { c with writer := c.writer.WriteHeader code }

/-- context.NotFound: emit status 404. -/
def Ctx.NotFound (c : Ctx RW) : Ctx RW :=
  c.StatusCode 404

/-- context.NextOr (context.go lines 1403-1420): run the next handler and
skip it if one exists; else 404 + stop when no alternative is given; else
install the alternative chain and run its first handler. -/
def Ctx.NextOr (c : Ctx RW) (alt : List Nat) : Ctx RW × List HEv × Bool :=
  match c.NextHandler with
  | some next => (c.Skip, [HEv.invoke next], true)
  | none =>
    if alt.length = 0 then ((c.NotFound).StopExecution, [], false)
    else
      let (c1, evs) := c.Do alt
      (c1, evs, false)

/-! ## EndRequest (context/context.go lines 1186-1217) -/

/-- StatusCodeNotSuccessful (context.go lines 1176-1178). -/
def StatusCodeNotSuccessful (statusCode : Int) : Bool :=
  statusCode < 200 || statusCode ≥ 400

/-- statusCodeSuccessful (core/router/status.go lines 10-13). -/
def statusCodeSuccessful (statusCode : Int) : Bool :=
  !(StatusCodeNotSuccessful statusCode)

/-- Request-level events emitted by `EndRequest` towards the application
and the current writer. -/
inductive CEv where
  | fireStatusHandler (code : Int)
  | flushResponse
  | endResponse
  deriving DecidableEq, Repr

/-- context.GetStatusCode: the writer's recorded status code. -/
def Ctx.GetStatusCode (c : Ctx RW) : Int :=
  c.writer.statusCode

/-- context.EndRequest: fire the application's status-code handler when
the status is an error, auto-fire is not disabled and nothing was
written; then flush-response and end-response on the current writer.
`disableAutoFireStatusCode` is the configuration flag read through
`ctx.Application().ConfigurationReadOnly()`. -/
def Ctx.EndRequest (c : Ctx RW) (disableAutoFireStatusCode : Bool) : List CEv :=
  (if StatusCodeNotSuccessful c.GetStatusCode ∧ ¬disableAutoFireStatusCode then
    (if c.writer.written ≤ 0 then [CEv.fireStatusHandler c.GetStatusCode] else [])
   else []) ++ [CEv.flushResponse, CEv.endResponse]

/-! ## ErrorCodeHandler.Fire (core/router/status.go lines 27-75) -/

/-- The context's current writer, as discriminated by `Fire`:
`ctx.IsRecording()`, the `*GzipResponseWriter` type assertion, or the
plain base writer. -/
inductive FWriter where
  | recorder (r : ResponseRecorder)
  | gzipW (g : GzipResponseWriter)
  | baseW (w : RW)
  deriving DecidableEq, Repr

/-- Registry entry for one error status code. -/
structure ErrorCodeHandler where
  StatusCode : Int
  Handlers : List Nat
  deriving DecidableEq, Repr

/-- The common tail of `Fire`: `ctx.HandlerIndex(0)` then
`ctx.Do(ch.Handlers)`. -/
def fireTail (ch : ErrorCodeHandler) (c : Ctx FWriter) : Ctx FWriter × List HEv :=
  let c1 := (c.HandlerIndex 0).1
  c1.Do ch.Handlers

/-- ErrorCodeHandler.Fire: reset a recording writer (forcing the
registered code unless an error code is already held), or reset and
disable a gzip writer, or bail out when the base writer already wrote
body bytes; then rewind the cursor and run the registered chain. -/
def ErrorCodeHandler.Fire (ch : ErrorCodeHandler) (c : Ctx FWriter) :
    Ctx FWriter × List HEv :=
  match c.writer with
  | FWriter.recorder r =>
    let r1 := if statusCodeSuccessful r.statusCode then r.WriteHeader ch.StatusCode else r
    let r2 := (r1.ClearHeaders).ResetBody
    fireTail ch { c with writer := FWriter.recorder r2 }
  | FWriter.gzipW g =>
    fireTail ch { c with writer := FWriter.gzipW ((g.ResetBody).Disable) }
  | FWriter.baseW w =>
    if w.written > 0 then (c, [])
    else fireTail ch c

/-! ## Claim C9 — Route.BuildHandlers -/

/-- Claim C9: `BuildHandlers` sets the handler list to
`begin ++ main ++ done`, empties the `begin` and `done` lists, and is
idempotent (a second call with no registrations in between leaves the
route unchanged). -/
theorem buildHandlers_splices_and_idempotent (r : Route) :
    (r.BuildHandlers).Handlers = r.beginHandlers ++ r.Handlers ++ r.doneHandlers ∧
    (r.BuildHandlers).beginHandlers = [] ∧
    (r.BuildHandlers).doneHandlers = [] ∧
    (r.BuildHandlers).BuildHandlers = r.BuildHandlers := by
  rcases r with ⟨nm, me, mb, sd, bh, hs, mh, dh, pa, fp⟩
  cases bh <;> cases dh <;> simp [Route.BuildHandlers]

/-! ## Claim C10 — context.HandlerIndex -/

/-- Claim C10: `HandlerIndex(n)` mutates the cursor exactly for
`0 ≤ n ≤ L-1`; for every other `n` (any negative value or `n ≥ L`) it
leaves the cursor unchanged and returns the current cursor, so no call
can place the cursor out of bounds (the result cursor is either the old
one or within `[0, L-1]`). -/
theorem handlerIndex_in_range_only (c : Ctx RW) (n : Int) :
    (0 ≤ n ∧ n ≤ (c.handlers.length : Int) - 1 →
      c.HandlerIndex n = ({ c with currentHandlerIndex := n }, n)) ∧
    (n < 0 ∨ (c.handlers.length : Int) - 1 < n →
      c.HandlerIndex n = (c, c.currentHandlerIndex)) ∧
    ((c.HandlerIndex n).1.currentHandlerIndex = c.currentHandlerIndex ∨
      (0 ≤ (c.HandlerIndex n).1.currentHandlerIndex ∧
        (c.HandlerIndex n).1.currentHandlerIndex ≤ (c.handlers.length : Int) - 1)) := by
  refine ⟨fun h => ?_, fun h => ?_, ?_⟩
  · rw [Ctx.HandlerIndex, if_neg (by omega)]
  · rw [Ctx.HandlerIndex, if_pos (by omega)]
  · by_cases h : n < 0 ∨ n > (c.handlers.length : Int) - 1
    · rw [Ctx.HandlerIndex, if_pos h]; exact Or.inl rfl
    · rw [Ctx.HandlerIndex, if_neg h]
      push_neg at h
      exact Or.inr ⟨h.1, h.2⟩

/-- Witness for C10: on a two-handler chain, `HandlerIndex 1` moves the
cursor to 1. -/
theorem handlerIndex_in_range_only_witness :
    Ctx.HandlerIndex ⟨[5, 6], 0, RW.BeginResponse⟩ 1 =
      (⟨[5, 6], 1, RW.BeginResponse⟩, 1) :=
  (handlerIndex_in_range_only ⟨[5, 6], 0, RW.BeginResponse⟩ 1).1 (by decide)

/-! ## Claim C6 — Route.ResolvePath on a wildcard route -/

/-- A registered wildcard route as the route builder produces it: the
node path keeps the parameter name after `*`, and the formatted path is
computed by `formatPath`. -/
def fileRoute : Route :=
  { Name := "GET/files", Method := "GET", methodBckp := "GET", Subdomain := "",
    beginHandlers := [], Handlers := [1], MainHandlerName := "h",
    doneHandlers := [], Path := "/files/*file",
    FormattedPath := formatPath "/files/*file" }

/-- Claim C6: the wildcard-join branch of `ResolvePath` tests whether the
registered path's last byte is `*`, but a registered wildcard path ends
with the parameter name (`/files/*file`), so with args `["a", "b"]` the
call substitutes only the single `%v` and returns `/files/a`, not the
claimed `/files/a/b`. -/
theorem resolvePath_wildcard_drops_extra_args :
    fileRoute.FormattedPath = "/files/%v" ∧
    fileRoute.ResolvePath ["a", "b"] = "/files/a" ∧
    fileRoute.ResolvePath ["a", "b"] ≠ "/files/a/b" := by decide

/-! ## Claim C3 — context.EndRequest -/

/-- Claim C3: `EndRequest` invokes the application's status-code handler
exactly when the writer's status is outside `[200, 400)`, auto-fire is
enabled (the disable flag is off) and the written counter is at most 0;
in every case it then calls flush-response followed by end-response on
the current writer. -/
theorem endRequest_fires_iff (c : Ctx RW) (disableAutoFireStatusCode : Bool) :
    ((∃ k, CEv.fireStatusHandler k ∈ c.EndRequest disableAutoFireStatusCode) ↔
      ((c.writer.statusCode < 200 ∨ 400 ≤ c.writer.statusCode) ∧
        disableAutoFireStatusCode = false ∧ c.writer.written ≤ 0)) ∧
    (∃ pre, c.EndRequest disableAutoFireStatusCode =
      pre ++ [CEv.flushResponse, CEv.endResponse]) := by
  unfold Ctx.EndRequest
  constructor
  · constructor
    · intro ⟨k, hk⟩
      by_cases h1 : StatusCodeNotSuccessful c.GetStatusCode ∧ ¬disableAutoFireStatusCode
      · by_cases h2 : c.writer.written ≤ 0
        · refine ⟨?_, ?_, h2⟩
          · have := h1.1
            simp only [StatusCodeNotSuccessful, Ctx.GetStatusCode, Bool.or_eq_true,
              decide_eq_true_eq] at this
            exact this
          · have := h1.2
            simp_all
        · rw [if_pos h1, if_neg h2] at hk
          simp at hk
      · rw [if_neg h1] at hk
        simp at hk
    · intro ⟨hcode, hflag, hwritten⟩
      have h1 : StatusCodeNotSuccessful c.GetStatusCode ∧ ¬disableAutoFireStatusCode := by
        subst hflag
        refine ⟨?_, by simp⟩
        simp only [StatusCodeNotSuccessful, Ctx.GetStatusCode, Bool.or_eq_true,
          decide_eq_true_eq]
        exact hcode
      rw [if_pos h1, if_pos hwritten]
      exact ⟨c.GetStatusCode, by simp⟩
  · exact ⟨_, rfl⟩

/-! ## Claim C4 — at-most-one native WriteHeader -/

/-- `countWriteHeader` distributes over trace concatenation. -/
theorem countWriteHeader_append (a b : List WEv) :
    countWriteHeader (a ++ b) = countWriteHeader a + countWriteHeader b := by
  simp [countWriteHeader, List.filter_append]

/-- One native write-header event counts as 1. -/
theorem countWH_single_wh (code : Int) :
    countWriteHeader [WEv.nativeWriteHeader code] = 1 := rfl

/-- A native body-write event counts as 0. -/
theorem countWH_single_w (n : Nat) : countWriteHeader [WEv.nativeWrite n] = 0 := rfl

/-- A pre-flush callback event counts as 0. -/
theorem countWH_single_bf : countWriteHeader [WEv.beforeFlushCall] = 0 := rfl

/-- The empty trace counts as 0. -/
theorem countWH_nil : countWriteHeader [] = 0 := rfl

/-- Unfolding of `runWOps` over a cons. -/
theorem runWOps_cons (w : RW) (op : WOp) (ops : List WOp) :
    runWOps w (op :: ops) =
      ((runWOps (runWOp w op).1 ops).1, (runWOp w op).2 ++ (runWOps (runWOp w op).1 ops).2) := by
  show (match runWOp w op with
    | (w1, evs) => match runWOps w1 ops with
      | (w2, evs2) => (w2, evs ++ evs2)) = _
  rcases h1 : runWOp w op with ⟨w1, evs⟩
  rcases h2 : runWOps w1 ops with ⟨w2, evs2⟩
  simp [h1, h2]

/-- Once the written counter is non-negative, no later operation emits a
native `WriteHeader` and the counter stays non-negative. -/
theorem runWOps_count_pos (ops : List WOp) : ∀ w : RW, 0 ≤ w.written →
    countWriteHeader (runWOps w ops).2 = 0 ∧ 0 ≤ (runWOps w ops).1.written := by
  induction ops with
  | nil => exact fun w hw => ⟨rfl, hw⟩
  | cons op ops ih =>
    intro w hw
    have hwne : ¬ w.written = NoWritten := by simp only [NoWritten]; omega
    rw [runWOps_cons, countWriteHeader_append]
    cases op with
    | writeHeader code =>
      have h := ih (w.WriteHeader code) hw
      simpa [runWOp, countWH_nil] using h
    | write n =>
      have h := ih { w with written := w.written + (n : Int) } (by simp only []; omega)
      have hop : runWOp w (WOp.write n) =
          ({ w with written := w.written + (n : Int) }, [WEv.nativeWrite n]) := by
        simp [runWOp, RW.Write, RW.tryWriteHeader, hwne]
      rw [hop]
      simpa [countWH_single_w] using h
    | writeString n =>
      have h := ih { w with written := w.written + (n : Int) } (by simp only []; omega)
      have hop : runWOp w (WOp.writeString n) =
          ({ w with written := w.written + (n : Int) }, [WEv.nativeWrite n]) := by
        simp [runWOp, RW.WriteString, RW.tryWriteHeader, hwne]
      rw [hop]
      simpa [countWH_single_w] using h
    | flushResponse =>
      have h := ih w hw
      have hop : runWOp w WOp.flushResponse =
          (w, if w.beforeFlush then [WEv.beforeFlushCall] else []) := by
        simp [runWOp, RW.FlushResponse, RW.tryWriteHeader, hwne]
      rw [hop]
      cases hbf : w.beforeFlush <;> simpa [hbf, countWH_single_bf, countWH_nil] using h
    | setBeforeFlush =>
      have h := ih (w.SetBeforeFlush) hw
      simpa [runWOp, countWH_nil] using h

/-- Invariant behind C4: starting with `written = NoWritten` the trace
contains exactly one native `WriteHeader` iff some body write or flush
occurs, and `written` leaves the sentinel exactly then. -/
theorem runWOps_writeHeader_invariant (ops : List WOp) : ∀ w : RW, w.written = NoWritten →
    countWriteHeader (runWOps w ops).2 = (if ops.any transmitsStatus then 1 else 0) ∧
    ((runWOps w ops).1.written = NoWritten ↔ ops.any transmitsStatus = false) := by
  induction ops with
  | nil =>
    intro w hw
    exact ⟨by simp [runWOps, countWH_nil], by simp [runWOps, hw]⟩
  | cons op ops ih =>
    intro w hw
    rw [runWOps_cons, countWriteHeader_append]
    cases op with
    | writeHeader code =>
      have h := ih (w.WriteHeader code) hw
      simp only [RW.WriteHeader] at h
      simp only [runWOp, RW.WriteHeader, List.any_cons, transmitsStatus, Bool.false_or,
        countWH_nil]
      exact ⟨by rw [h.1]; simp, h.2⟩
    | write n =>
      have hop : runWOp w (WOp.write n) =
          ({ w with written := StatusCodeWritten + (n : Int) },
            [WEv.nativeWriteHeader w.statusCode, WEv.nativeWrite n]) := by
        simp [runWOp, RW.Write, RW.tryWriteHeader, hw]
      have h := runWOps_count_pos ops { w with written := StatusCodeWritten + (n : Int) }
        (by simp only [StatusCodeWritten]; omega)
      rw [hop]
      have hcount : countWriteHeader [WEv.nativeWriteHeader w.statusCode, WEv.nativeWrite n]
          = 1 := rfl
      simp only [hcount, h.1, List.any_cons, transmitsStatus, Bool.true_or, if_true]
      refine ⟨by trivial, ?_⟩
      have hpos := h.2
      constructor
      · intro habs
        rw [habs] at hpos
        simp only [NoWritten] at hpos
        omega
      · intro habs
        cases habs
    | writeString n =>
      have hop : runWOp w (WOp.writeString n) =
          ({ w with written := StatusCodeWritten + (n : Int) },
            [WEv.nativeWriteHeader w.statusCode, WEv.nativeWrite n]) := by
        simp [runWOp, RW.WriteString, RW.tryWriteHeader, hw]
      have h := runWOps_count_pos ops { w with written := StatusCodeWritten + (n : Int) }
        (by simp only [StatusCodeWritten]; omega)
      rw [hop]
      have hcount : countWriteHeader [WEv.nativeWriteHeader w.statusCode, WEv.nativeWrite n]
          = 1 := rfl
      simp only [hcount, h.1, List.any_cons, transmitsStatus, Bool.true_or, if_true]
      refine ⟨by trivial, ?_⟩
      have hpos := h.2
      constructor
      · intro habs
        rw [habs] at hpos
        simp only [NoWritten] at hpos
        omega
      · intro habs
        cases habs
    | flushResponse =>
      have hop : runWOp w WOp.flushResponse =
          ({ w with written := StatusCodeWritten },
            (if w.beforeFlush then [WEv.beforeFlushCall] else []) ++
              [WEv.nativeWriteHeader w.statusCode]) := by
        simp [runWOp, RW.FlushResponse, RW.tryWriteHeader, hw]
      have h := runWOps_count_pos ops { w with written := StatusCodeWritten }
        (by simp only [StatusCodeWritten]; omega)
      rw [hop]
      have hcount : countWriteHeader
          ((if w.beforeFlush then [WEv.beforeFlushCall] else []) ++
            [WEv.nativeWriteHeader w.statusCode]) = 1 := by
        cases hbf : w.beforeFlush <;> rfl
      simp only [hcount, h.1, List.any_cons, transmitsStatus, Bool.true_or, if_true]
      refine ⟨by trivial, ?_⟩
      have hpos := h.2
      constructor
      · intro habs
        rw [habs] at hpos
        simp only [NoWritten] at hpos
        omega
      · intro habs
        cases habs
    | setBeforeFlush =>
      have h := ih (w.SetBeforeFlush) hw
      simp only [RW.SetBeforeFlush] at h
      simp only [runWOp, RW.SetBeforeFlush, List.any_cons, transmitsStatus, Bool.false_or,
        countWH_nil]
      exact ⟨by rw [h.1]; simp, h.2⟩

/-- Claim C4: over one request (any sequence of write-header, body
writes, flushes and pre-flush registrations after `BeginResponse`), the
native `WriteHeader` is invoked exactly once if any body write or
explicit flush occurs and never otherwise — in particular at most once —
and the written counter leaves the `NO_WRITTEN` sentinel exactly then. -/
theorem nativeWriteHeader_at_most_once (ops : List WOp) :
    countWriteHeader (runWOps RW.BeginResponse ops).2 =
      (if ops.any transmitsStatus then 1 else 0) ∧
    ((runWOps RW.BeginResponse ops).1.written = NoWritten ↔
      ops.any transmitsStatus = false) ∧
    countWriteHeader (runWOps RW.BeginResponse ops).2 ≤ 1 := by
  have h := runWOps_writeHeader_invariant ops RW.BeginResponse rfl
  refine ⟨h.1, h.2, ?_⟩
  rw [h.1]
  split <;> omega

/-! ## Claim C5 — context.NextOr -/

/-- Claim C5: `NextOr(alt...)` runs the next handler of the chain if one
exists and advances the cursor onto it (so it is not re-entered),
returning `true`; with no next handler and empty `alt` it sets status
404 and stops execution (cursor `-1`), returning `false`; otherwise it
installs `alt` as the new chain and runs its first handler, returning
`false`. The hypothesis restricts to the reachable cursor values
(`≥ -1`; Go would panic on an impossible negative index). -/
theorem nextOr_semantics (c : Ctx RW) (alt : List Nat) (hc : -1 ≤ c.currentHandlerIndex) :
    (∀ next, c.NextHandler = some next →
      c.NextOr alt = ({ c with currentHandlerIndex := c.currentHandlerIndex + 1 },
        [HEv.invoke next], true)) ∧
    (c.NextHandler = none → alt = [] →
      c.NextOr alt =
        ({ c with
             writer := c.writer.WriteHeader 404,
             currentHandlerIndex := stopExecutionIndex }, [], false)) ∧
    (c.NextHandler = none → ∀ a as, alt = a :: as →
      c.NextOr alt = ({ c with handlers := alt }, [HEv.invoke a], false)) := by
  refine ⟨fun next hnext => ?_, fun hnext halt => ?_, fun hnext a as halt => ?_⟩
  · have hns : ¬ c.IsStopped = true := by
      intro h
      rw [Ctx.NextHandler] at hnext
      simp [h] at hnext
    have hcur : 0 ≤ c.currentHandlerIndex := by
      simp only [Ctx.IsStopped, stopExecutionIndex, decide_eq_true_eq] at hns
      omega
    have hlt : c.currentHandlerIndex + 1 < (c.handlers.length : Int) := by
      rw [Ctx.NextHandler] at hnext
      simp only [hns, if_false, Bool.false_eq_true] at hnext
      by_cases hvs : c.currentHandlerIndex + 1 < (c.handlers.length : Int)
      · exact hvs
      · rw [if_neg hvs] at hnext
        cases hnext
    simp only [Ctx.NextOr, hnext]
    have hskip : c.Skip = { c with currentHandlerIndex := c.currentHandlerIndex + 1 } := by
      rw [Ctx.Skip, Ctx.HandlerIndex, if_neg (by omega)]
    rw [hskip]
  · subst halt
    simp only [Ctx.NextOr, hnext, List.length_nil]
    rfl
  · subst halt
    simp only [Ctx.NextOr, hnext, List.length_cons]
    rw [if_neg (by omega)]
    rfl

/-- Witness for C5: on chain `[5, 6]` with cursor 0, `NextOr` runs
handler 6 and advances the cursor to 1, returning `true`. -/
theorem nextOr_semantics_witness :
    Ctx.NextOr ⟨[5, 6], 0, RW.BeginResponse⟩ [] =
      (⟨[5, 6], 1, RW.BeginResponse⟩, [HEv.invoke 6], true) :=
  (nextOr_semantics ⟨[5, 6], 0, RW.BeginResponse⟩ [] (by decide)).1 6 (by decide)

/-! ## Claim C2 — gzip response headers on flush -/

/-- Claim C2 counterexample state: a gzip writer over headers that
already carry `Content-Length`, with buffered chunks and compression
enabled. -/
def gzipCLExample : GzipResponseWriter :=
  { headers := [("Content-Length", "100")], chunks := 5, disabled := false }

/-- Claim C2 counterexample: flushing a non-disabled gzip writer whose
underlying headers already carry `Content-Length` emits
`Content-Encoding: gzip` *and keeps* `Content-Length` (the deletion in
`WriteNow` is commented out in the source), contradicting the claim that
compressed output never carries `Content-Length`. -/
theorem gzip_flush_keeps_contentLength :
    ((gzipCLExample.FlushResponse).1.headers.containsPair "Content-Encoding" "gzip" = true) ∧
    ((gzipCLExample.FlushResponse).1.headers.containsKey "Content-Length" = true) ∧
    gzipCLExample.disabled = false := by decide

/-- Claim C2 (amended): flushing while not disabled adds
`Content-Encoding: gzip` and `Vary: Accept-Encoding` and leaves any
pre-existing `Content-Length` untouched (it is not removed); flushing
while disabled leaves the header map entirely unchanged. -/
theorem gzip_flush_headers (g : GzipResponseWriter) :
    (g.disabled = false →
      ((g.FlushResponse).1.headers.containsPair "Content-Encoding" "gzip" = true ∧
       (g.FlushResponse).1.headers.containsPair "Vary" "Accept-Encoding" = true ∧
       (g.FlushResponse).1.headers.valuesOf "Content-Length" =
         g.headers.valuesOf "Content-Length")) ∧
    (g.disabled = true → (g.FlushResponse).1.headers = g.headers) := by
  constructor
  · intro hd
    have hflush : (g.FlushResponse).1.headers = AddGzipHeaders g.headers := by
      simp [GzipResponseWriter.FlushResponse, GzipResponseWriter.WriteNow, hd]
    rw [hflush]
    refine ⟨?_, ?_, ?_⟩
    · simp [AddGzipHeaders, Headers.add, Headers.containsPair]
    · simp [AddGzipHeaders, Headers.add, Headers.containsPair]
    · simp [AddGzipHeaders, Headers.add, Headers.valuesOf, List.filter_append]
  · intro hd
    simp [GzipResponseWriter.FlushResponse, GzipResponseWriter.WriteNow, hd]

/-- Witness for C2 (amended): at the counterexample state the compressed
flush carries both gzip headers and the untouched `Content-Length`. -/
theorem gzip_flush_headers_witness :
    ((gzipCLExample.FlushResponse).1.headers.containsPair "Content-Encoding" "gzip" = true ∧
     (gzipCLExample.FlushResponse).1.headers.containsPair "Vary" "Accept-Encoding" = true ∧
     (gzipCLExample.FlushResponse).1.headers.valuesOf "Content-Length" =
       gzipCLExample.headers.valuesOf "Content-Length") :=
  (gzip_flush_headers gzipCLExample).1 rfl

/-! ## Claim C8 — ErrorCodeHandler.Fire -/

/-- Whether `Fire` reaches the common tail (every writer shape except a
base writer that already wrote body bytes). -/
def firesP (c : Ctx FWriter) : Bool :=
  match c.writer with
  | FWriter.baseW w => decide (w.written ≤ 0)
  | _ => true

/-- Claim C8 counterexample context: a stopped context (cursor `-1`)
with an empty chain and a recording writer. -/
def fireCtxExample : Ctx FWriter :=
  { handlers := [], currentHandlerIndex := -1,
    writer := FWriter.recorder { statusCode := 200, headers := [("X-Test", "1")], body := 3 } }

/-- Claim C8 counterexample handler registration (500 with chain [7, 8]). -/
def fireChExample : ErrorCodeHandler :=
  { StatusCode := 500, Handlers := [7, 8] }

/-- Claim C8 counterexample: firing on a recording writer (a fired case:
the registered chain does run) leaves the cursor at `-1`, not 0 —
`HandlerIndex(0)` refuses the out-of-range index on the empty chain — so
the claim's "the cursor is set to 0" fails as stated. -/
theorem fire_cursor_not_reset_counterexample :
    (fireChExample.Fire fireCtxExample).2 = [HEv.invoke 7] ∧
    (fireChExample.Fire fireCtxExample).1.currentHandlerIndex ≠ 0 := by decide

/-- The recorder transformation applied by the recording branch of
`Fire` (status forced unless already an error code, then headers and
body cleared). -/
def fireRecorderReset (ch : ErrorCodeHandler) (r : ResponseRecorder) : ResponseRecorder :=
  (((if statusCodeSuccessful r.statusCode then r.WriteHeader ch.StatusCode
    else r).ClearHeaders).ResetBody)

/-- Claim C8 (amended): `Fire` on a recording writer forces the
registered status unless an error code is already held and clears its
headers and body; on a gzip writer it resets the buffer and disables it;
on a base writer that already wrote body bytes it returns without firing;
in the fired cases the cursor is set to 0 whenever the pre-existing chain
is non-empty (otherwise `HandlerIndex` leaves it unchanged), and the
registered chain replaces the old one and its first handler runs via
`Do`. -/
theorem fire_semantics (ch : ErrorCodeHandler) (c : Ctx FWriter) :
    (∀ w, c.writer = FWriter.baseW w → 0 < w.written → ch.Fire c = (c, [])) ∧
    (∀ r, c.writer = FWriter.recorder r →
      (ch.Fire c).1.writer = FWriter.recorder
        { statusCode := if statusCodeSuccessful r.statusCode then ch.StatusCode
            else r.statusCode,
          headers := [], body := 0 }) ∧
    (∀ g, c.writer = FWriter.gzipW g →
      (ch.Fire c).1.writer = FWriter.gzipW
        { headers := g.headers, chunks := 0, disabled := true }) ∧
    (firesP c = true →
      ((ch.Fire c).1.currentHandlerIndex =
        if c.handlers.length > 0 then 0 else c.currentHandlerIndex) ∧
      ((ch.Fire c).1.handlers = if ch.Handlers.length > 0 then ch.Handlers else c.handlers) ∧
      ((ch.Fire c).2 = match ch.Handlers with | [] => [] | h :: _ => [HEv.invoke h])) := by
  have htail : ∀ c1 : Ctx FWriter,
      ((fireTail ch c1).1.currentHandlerIndex =
        if c1.handlers.length > 0 then 0 else c1.currentHandlerIndex) ∧
      ((fireTail ch c1).1.handlers =
        if ch.Handlers.length > 0 then ch.Handlers else c1.handlers) ∧
      ((fireTail ch c1).2 = match ch.Handlers with | [] => [] | h :: _ => [HEv.invoke h]) ∧
      (fireTail ch c1).1.writer = c1.writer := by
    intro c1
    have hidx : ((c1.HandlerIndex 0).1 : Ctx FWriter) =
        if c1.handlers.length > 0 then { c1 with currentHandlerIndex := 0 } else c1 := by
      by_cases hlen : c1.handlers.length > 0
      · rw [Ctx.HandlerIndex, if_neg (by push_neg; constructor <;> omega), if_pos hlen]
      · rw [Ctx.HandlerIndex, if_pos (by right; omega), if_neg hlen]
    rw [fireTail, hidx]
    by_cases hlen : c1.handlers.length > 0 <;>
      cases hch : ch.Handlers <;>
        simp [hlen, Ctx.Do, hch]
  rcases hcw : c.writer with r | g | w
  · have hfire : ch.Fire c =
        fireTail ch { c with writer := FWriter.recorder (fireRecorderReset ch r) } := by
      simp only [ErrorCodeHandler.Fire, hcw, fireRecorderReset]
    refine ⟨fun w0 hw0 => ?_, fun r0 hr0 => ?_, fun g0 hg0 => ?_, fun hf => ?_⟩
    · cases hw0
    · injection hr0 with hr0
      subst hr0
      rw [hfire, (htail _).2.2.2]
      by_cases hsc : statusCodeSuccessful r.statusCode = true <;>
        simp [hsc, fireRecorderReset, ResponseRecorder.WriteHeader,
          ResponseRecorder.ClearHeaders, ResponseRecorder.ResetBody]
    · cases hg0
    · rw [hfire]
      have h := htail { c with writer := FWriter.recorder (fireRecorderReset ch r) }
      exact ⟨h.1, h.2.1, h.2.2.1⟩
  · have hfire : ch.Fire c =
        fireTail ch { c with writer := FWriter.gzipW ((g.ResetBody).Disable) } := by
      simp only [ErrorCodeHandler.Fire, hcw]
    refine ⟨fun w0 hw0 => ?_, fun r0 hr0 => ?_, fun g0 hg0 => ?_, fun hf => ?_⟩
    · cases hw0
    · cases hr0
    · injection hg0 with hg0
      subst hg0
      rw [hfire, (htail _).2.2.2]
      simp [GzipResponseWriter.ResetBody, GzipResponseWriter.Disable]
    · rw [hfire]
      have h := htail { c with writer := FWriter.gzipW ((g.ResetBody).Disable) }
      exact ⟨h.1, h.2.1, h.2.2.1⟩
  · refine ⟨fun w0 hw0 => ?_, fun r0 hr0 => ?_, fun g0 hg0 => ?_, fun hf => ?_⟩
    · injection hw0 with hw0
      subst hw0
      intro hpos
      simp only [ErrorCodeHandler.Fire, hcw, if_pos hpos]
    · cases hr0
    · cases hg0
    · have hle : w.written ≤ 0 := by
        rw [firesP, hcw] at hf
        exact of_decide_eq_true hf
      have hfire : ch.Fire c = fireTail ch c := by
        simp only [ErrorCodeHandler.Fire, hcw, if_neg (by omega : ¬ w.written > 0)]
      rw [hfire]
      have h := htail c
      exact ⟨h.1, h.2.1, h.2.2.1⟩

/-- Witness for C8 (amended): firing a 500 registration on a recording
writer with status 200 forces status 500 and clears headers and body. -/
theorem fire_semantics_witness :
    (ErrorCodeHandler.Fire { StatusCode := 500, Handlers := [7] }
      { handlers := [9], currentHandlerIndex := 0,
        writer := FWriter.recorder
          { statusCode := 200, headers := [("A", "b")], body := 4 } }).1.writer =
      FWriter.recorder { statusCode := 500, headers := [], body := 0 } :=
  (fire_semantics { StatusCode := 500, Handlers := [7] }
      { handlers := [9], currentHandlerIndex := 0,
        writer := FWriter.recorder
          { statusCode := 200, headers := [("A", "b")], body := 4 } }).2.1
    { statusCode := 200, headers := [("A", "b")], body := 4 } rfl

/-! ## Trie (core/router/trie.go)

A `trieNode` holds its children in a Go map keyed by the segment literal
(or the sentinels `:` and `*`); the map is modelled as an association
list (one entry per key). Parent pointers are not stored; the search
carries the ancestor chain (nearest first) explicitly, which is what
`findClosestParentWildcardNode` walks. -/

inductive TrieNode : Type where
  | mk (children : List (String × TrieNode))
       (hasDynamicChild : Bool)
       (childNamedParameter : Bool)
       (childWildcardParameter : Bool)
       (paramKeys : List String)
       (isEnd : Bool)
       (key : String)
       (staticKey : String)
       (handlers : List Nat)
       (routeName : String) : TrieNode

/-- children: the child map of the node. -/
def TrieNode.children : TrieNode → List (String × TrieNode)
  | .mk c _ _ _ _ _ _ _ _ _ => c

/-- hasDynamicChild flag. -/
def TrieNode.hasDynamicChild : TrieNode → Bool
  | .mk _ d _ _ _ _ _ _ _ _ => d

/-- childNamedParameter flag. -/
def TrieNode.childNamedParameter : TrieNode → Bool
  | .mk _ _ np _ _ _ _ _ _ _ => np

/-- childWildcardParameter flag. -/
def TrieNode.childWildcardParameter : TrieNode → Bool
  | .mk _ _ _ wp _ _ _ _ _ _ => wp

/-- paramKeys: parameter names (without `:` or `*`) of the whole path,
filled on the terminal node. -/
def TrieNode.paramKeys : TrieNode → List String
  | .mk _ _ _ _ pk _ _ _ _ _ => pk

/-- end flag (`end` is reserved in Lean, hence `isEnd`). -/
def TrieNode.isEnd : TrieNode → Bool
  | .mk _ _ _ _ _ e _ _ _ _ => e

/-- key: the registered path when terminal. -/
def TrieNode.key : TrieNode → String
  | .mk _ _ _ _ _ _ k _ _ _ => k

/-- staticKey: the registered path up to the first dynamic character. -/
def TrieNode.staticKey : TrieNode → String
  | .mk _ _ _ _ _ _ _ sk _ _ => sk

/-- handlers bound on the terminal node (opaque tokens). -/
def TrieNode.handlers : TrieNode → List Nat
  | .mk _ _ _ _ _ _ _ _ hs _ => hs

/-- RouteName bound on the terminal node. -/
def TrieNode.routeName : TrieNode → String
  | .mk _ _ _ _ _ _ _ _ _ rn => rn

/-- Go map lookup over the association-list child map. -/
def lookupChild : List (String × TrieNode) → String → Option TrieNode
  | [], _ => none
  | (k, c) :: rest, s => if k = s then some c else lookupChild rest s

/-- trieNode.getChild. -/
def TrieNode.getChild (tn : TrieNode) (s : String) : Option TrieNode :=
  lookupChild tn.children s

/-- trieNode.hasChild. -/
def TrieNode.hasChild (tn : TrieNode) (s : String) : Bool :=
  (tn.getChild s).isSome

/-- Replace the binding of key `s` (adding it when absent): the
functional counterpart of mutating the child found under `s`. -/
def updateChildList : List (String × TrieNode) → String → TrieNode → List (String × TrieNode)
  | [], s, n => [(s, n)]
  | (k, c) :: rest, s, n => if k = s then (s, n) :: rest else (k, c) :: updateChildList rest s n

/-- newTrieNode: all fields zero-valued. -/
def newTrieNode : TrieNode :=
  .mk [] false false false [] false "" "" [] ""

/-- The static-key computation of trie.insert (trie.go lines 191-199):
the path up to the first `:`, else the first `*`, else the whole path. -/
def staticKeyOf (path : String) : String :=
  let i := match idxOfChar ':' path.data with
    | some i => i
    | none => match idxOfChar '*' path.data with
      | some i => i
      | none => path.data.length
  String.mk (path.data.take i)

/-- The segment-walking body of trie.insert: create or descend into the
child for each segment (named segments under the `:` key, wildcard
segments under `*`), accumulate parameter names, and fill the terminal
node's fields at the end. Go reads `s[0]`, which panics on an empty
segment (route paths with `//` are never produced); the model reads a
blank default instead. -/
def insertNode (n : TrieNode) (segs : List String) (acc : List String)
    (path routeName : String) (handlers : List Nat) : TrieNode :=
  match segs with
  | [] =>
    .mk n.children n.hasDynamicChild n.childNamedParameter n.childWildcardParameter
      acc true path (staticKeyOf path) handlers routeName
  | s :: rest =>
    let c := s.data.headD ' '
    let isParam := c = ':'
    let isWildcard := c = '*'
    let acc1 := if isParam || isWildcard then acc ++ [String.mk (s.data.drop 1)] else acc
    let skey := if isParam then ":" else if isWildcard then "*" else s
    let child := (lookupChild n.children skey).getD newTrieNode
    let child1 := insertNode child rest acc1 path routeName handlers
    .mk (updateChildList n.children skey child1)
      (n.hasDynamicChild || isParam || isWildcard)
      (n.childNamedParameter || isParam)
      (n.childWildcardParameter || isWildcard)
      n.paramKeys n.isEnd n.key n.staticKey n.handlers n.routeName

/-- The trie: root node plus the root-wildcard / root-slash flags and the
`(method, subdomain)` key. -/
structure Trie where
  root : TrieNode
  hasRootWildcard : Bool
  hasRootSlash : Bool
  method : String
  subdomain : String

/-- newTrie. -/
def newTrie : Trie :=
  { root := newTrieNode, hasRootWildcard := false, hasRootSlash := false,
    method := "", subdomain := "" }

/-- slowPathSplit (trie.go lines 134-140): `["/"]` for the root path,
otherwise `strings.Split(path, "/")[1:]`. -/
def slowPathSplit (path : String) : List String :=
  if path = "/" then ["/"]
  else (splitChar '/' path.data).drop 1

/-- trie.insert (trie.go lines 143-200). The root-wildcard flag is set
exactly when a wildcard segment is processed at the root, i.e. when the
first segment starts with `*`. -/
def Trie.insert (tr : Trie) (path routeName : String) (handlers : List Nat) : Trie :=
  let input := slowPathSplit path
  { root := insertNode tr.root input [] path routeName handlers,
    hasRootWildcard := tr.hasRootWildcard ||
      (match input with
       | s :: _ => s.data.headD ' ' = '*'
       | [] => false),
    hasRootSlash := tr.hasRootSlash || (path = "/"),
    method := tr.method, subdomain := tr.subdomain }

/-- trieNode.findClosestParentWildcardNode (trie.go lines 84-95) over the
explicit ancestor chain (nearest first): the walk stops at the first
ancestor whose wildcard flag is set and returns its `*` child. -/
def findClosestParentWildcardNode : List TrieNode → Option TrieNode
  | [] => none
  | tn :: rest =>
    if tn.childWildcardParameter then tn.getChild "*"
    else findClosestParentWildcardNode rest

/-- The search's out-parameter store (`context.RequestParams`). -/
abbrev ParamStore := List (String × String)

/-- Modelled from the spec: the ordered key/value store's `Set` (the
memstore package is not under src/) — keys unique, update in place or
append. -/
def psSet (ps : ParamStore) (k v : String) : ParamStore :=
  match ps with
  | [] => [(k, v)]
  | (k0, v0) :: rest => if k0 = k then (k, v) :: rest else (k0, v0) :: psSet rest k v

/-- The final parameter assignment of a successful search (trie.go lines
309-313): pair collected values with the node's `paramKeys`, guarded by
`len(paramKeys) > i`. -/
def setParamsZip : ParamStore → List String → List String → ParamStore
  | ps, _, [] => ps
  | ps, [], _ :: _ => ps
  | ps, k :: krest, v :: vrest => setParamsZip (psSet ps k v) krest vrest

/-- The nil-node epilogue of trie.search: the walk is skipped and only
the root-wildcard default applies. Reached in the model only through the
flag-without-child states that make the Go code dereference nil. -/
def searchEndNil (rootWild : Bool) (root : TrieNode) (q : String) (params : ParamStore) :
    Option TrieNode × ParamStore :=
  if rootWild then
    match root.getChild "*" with
    | some w => (some w, psSet params (w.paramKeys.headD "") (strDrop q 1))
    | none => (none, params)
  else (none, params)

/-- The epilogue of trie.search after the scanning loop broke at node `n`
(trie.go lines 283-315): when `n` is not terminal, back off to the
nearest ancestor wildcard (binding `q[len(staticKey):]` under the
wildcard node's first parameter key), else to the root wildcard (binding
`q[1:]`); when terminal, commit the collected parameter values. -/
def trieSearchEnd (rootWild : Bool) (root : TrieNode) (q : String) (n : TrieNode)
    (ancestors : List TrieNode) (paramValues : List String) (params : ParamStore) :
    Option TrieNode × ParamStore :=
  if n.isEnd then (some n, setParamsZip params n.paramKeys paramValues)
  else
    match findClosestParentWildcardNode ancestors with
    | some w => (some w, psSet params (w.paramKeys.headD "") (strDrop q w.staticKey.data.length))
    | none => searchEndNil rootWild root q params

/-- `dropWhile` never lengthens a list (termination measure helper). -/
theorem dropWhileLenLe {α : Type} (p : α → Bool) :
    ∀ l : List α, (l.dropWhile p).length ≤ l.length := by
  intro l
  induction l with
  | nil => simp [List.dropWhile]
  | cons a l ih =>
    cases hp : p a <;> simp [List.dropWhile, hp] <;> omega

/-- The segment-scanning loop of trie.search (trie.go lines 227-281),
with `suffix = q[start:]`: try the literal child, else the named child
(collecting the segment value), else the wildcard child (collecting the
whole remainder and breaking), else back off to the nearest ancestor
wildcard. `rest.tail` resumes after the `/` separator. -/
def trieSearchLoop (rootWild : Bool) (root : TrieNode) (q : String) (n : TrieNode)
    (ancestors : List TrieNode) (suffix : List Char) (paramValues : List String)
    (params : ParamStore) : Option TrieNode × ParamStore :=
  match n.getChild (String.mk (suffix.takeWhile (fun c => c ≠ '/'))) with
  | some child =>
    if h : (suffix.dropWhile (fun c => c ≠ '/')) = [] then
      trieSearchEnd rootWild root q child (n :: ancestors) paramValues params
    else
      trieSearchLoop rootWild root q child (n :: ancestors)
        (suffix.dropWhile (fun c => c ≠ '/')).tail paramValues params
  | none =>
    if n.childNamedParameter then
      match n.getChild ":" with
      | some child =>
        if h : (suffix.dropWhile (fun c => c ≠ '/')) = [] then
          trieSearchEnd rootWild root q child (n :: ancestors)
            (paramValues ++ [String.mk (suffix.takeWhile (fun c => c ≠ '/'))]) params
        else
          trieSearchLoop rootWild root q child (n :: ancestors)
            (suffix.dropWhile (fun c => c ≠ '/')).tail
            (paramValues ++ [String.mk (suffix.takeWhile (fun c => c ≠ '/'))]) params
      | none =>
        if (suffix.dropWhile (fun c => c ≠ '/')) = [] then
          searchEndNil rootWild root q params
        else (none, params)
    else if n.childWildcardParameter then
      match n.getChild "*" with
      | some child =>
        trieSearchEnd rootWild root q child (n :: ancestors)
          (paramValues ++ [String.mk suffix]) params
      | none => searchEndNil rootWild root q params
    else
      match findClosestParentWildcardNode ancestors with
      | some w => (some w, psSet params (w.paramKeys.headD "") (strDrop q w.staticKey.data.length))
      | none => (none, params)
termination_by suffix.length
decreasing_by
  all_goals
    simp only [List.length_tail]
    have h1 : (suffix.dropWhile (fun c => c ≠ '/')).length ≤ suffix.length :=
      dropWhileLenLe _ _
    have h2 : (suffix.dropWhile (fun c => c ≠ '/')).length ≠ 0 := by
      simp only [ne_eq, List.length_eq_zero]
      exact h
    omega

/-- trie.search (trie.go lines 204-316). For empty or `/` queries, the
root `/` child or the root wildcard child is returned directly (without
setting any parameter); otherwise the scan starts at `q[1:]`. -/
def Trie.search (tr : Trie) (q : String) (params : ParamStore) :
    Option TrieNode × ParamStore :=
  if q.data.length = 0 ∨ (q.data.length = 1 ∧ q.data.headD ' ' = '/') then
    if tr.hasRootSlash then (tr.root.getChild "/", params)
    else if tr.hasRootWildcard then (tr.root.getChild "*", params)
    else (none, params)
  else trieSearchLoop tr.hasRootWildcard tr.root q tr.root [] (q.data.drop 1) [] params

/-! ## Claim C7 — search of the empty or root path -/

/-- A trie holding only the root-wildcard route `/*myparam`. -/
def rootWildTrie : Trie := newTrie.insert "/*myparam" "wild" [9]

/-- Claim C7 counterexample: searching `/` on a root-wildcard trie
returns the wildcard child but does *not* set the trailing parameter to
the empty string — the out-parameter store stays empty (the source
comment says "no need to going through setting parameters"). -/
theorem search_rootSlash_no_param_counterexample :
    ((rootWildTrie.search "/" []).1.map TrieNode.key = some "/*myparam") ∧
    (rootWildTrie.search "/" []).2 = [] ∧
    (rootWildTrie.search "/" []).2 ≠ [("myparam", "")] := by decide

/-- Claim C7 (amended): for an empty or `/` query, search returns the
root's `/` child when one was registered, else the root wildcard child
when the trie has the root-wildcard flag (else no match) — and in every
one of these cases the out-parameter store is left untouched (no
empty-string binding is made). -/
theorem search_rootSlash_semantics (tr : Trie) (q : String) (params : ParamStore)
    (hq : q = "" ∨ q = "/") :
    tr.search q params =
      (if tr.hasRootSlash then (tr.root.getChild "/", params)
       else if tr.hasRootWildcard then (tr.root.getChild "*", params)
       else (none, params)) := by
  rcases hq with hq | hq <;> subst hq <;>
    rw [Trie.search, if_pos (by decide)]

/-- Witness for C7 (amended): on the root-wildcard trie, searching `/`
returns the wildcard child with the store untouched. -/
theorem search_rootSlash_semantics_witness :
    rootWildTrie.search "/" [] =
      (if rootWildTrie.hasRootSlash then (rootWildTrie.root.getChild "/", [])
       else if rootWildTrie.hasRootWildcard then (rootWildTrie.root.getChild "*", [])
       else (none, [])) :=
  search_rootSlash_semantics rootWildTrie "/" [] (Or.inr rfl)

/-! ## Claim C1 — the search algorithm against its specification

The claim-side functions below follow the wording of the claim (and of
spec §4.1) on the list of path segments of `q`: resolve each segment
preferring a literal child over the named child over the wildcard child;
whenever no child matches, or the reached node is not terminal, walk up
the parent chain to the nearest ancestor with a wildcard child and bind
that wildcard node's single parameter to the remainder of `q` past the
static prefix; return no-match only when no such ancestor exists and the
trie has no root wildcard. -/

/-- Claim-side fallback rule. The claim speaks of the wildcard node's
*single* parameter, so the binding is stated for a one-element
`paramKeys` list only. -/
def claimFallback (rootWild : Bool) (root : TrieNode) (q : String)
    (ancestors : List TrieNode) (params : ParamStore) : Option TrieNode × ParamStore :=
  match findClosestParentWildcardNode ancestors with
  | some w =>
    match w.paramKeys with
    | [k] => (some w, psSet params k (strDrop q w.staticKey.data.length))
    | _ => (none, params)
  | none =>
    if rootWild then
      match root.getChild "*" with
      | some w =>
        match w.paramKeys with
        | [k] => (some w, psSet params k (strDrop q 1))
        | _ => (none, params)
      | none => (none, params)
    else (none, params)

/-- Claim-side treatment of a reached node: a terminal node is returned
with its collected parameter values; a non-terminal one falls back to
the nearest ancestor wildcard. -/
def claimDone (rootWild : Bool) (root : TrieNode) (q : String) (child : TrieNode)
    (parents : List TrieNode) (pv : List String) (params : ParamStore) :
    Option TrieNode × ParamStore :=
  if child.isEnd then (some child, setParamsZip params child.paramKeys pv)
  else claimFallback rootWild root q parents params

/-- Claim-side segment resolution: literal > named > wildcard at each
node, wildcard consuming the joined remainder, and the fallback rule on
a stuck node. -/
def claimLoop (rootWild : Bool) (root : TrieNode) (q : String) (n : TrieNode)
    (ancestors : List TrieNode) (segs : List String) (pv : List String)
    (params : ParamStore) : Option TrieNode × ParamStore :=
  match segs with
  | [] => (none, params)
  | seg :: rest =>
    match n.getChild seg with
    | some child =>
      match rest with
      | [] => claimDone rootWild root q child (n :: ancestors) pv params
      | _ :: _ => claimLoop rootWild root q child (n :: ancestors) rest pv params
    | none =>
      if n.childNamedParameter then
        match n.getChild ":" with
        | some child =>
          match rest with
          | [] => claimDone rootWild root q child (n :: ancestors) (pv ++ [seg]) params
          | _ :: _ =>
            claimLoop rootWild root q child (n :: ancestors) rest (pv ++ [seg]) params
        | none => (none, params)
      else if n.childWildcardParameter then
        match n.getChild "*" with
        | some child =>
          claimDone rootWild root q child (n :: ancestors)
            (pv ++ [String.mk (joinChar '/' (seg :: rest))]) params
        | none => (none, params)
      else claimFallback rootWild root q ancestors params

/-- Claim-side search: resolve the path segments of `q` (the splits of
`q` past its leading `/`). -/
def claimSearch (tr : Trie) (q : String) (params : ParamStore) :
    Option TrieNode × ParamStore :=
  claimLoop tr.hasRootWildcard tr.root q tr.root [] (splitChar '/' (q.data.drop 1)) [] params

/-- Per-node well-formedness: a named-child flag comes with an actual
`:` child, and a wildcard-child flag with an actual `*` child holding
exactly one parameter key. Tries built from registered routes whose
wildcard tail is the only dynamic segment of the path satisfy this. -/
def nodeOk (tn : TrieNode) : Bool :=
  (!tn.childNamedParameter || (tn.getChild ":").isSome) &&
  (!tn.childWildcardParameter ||
    (match tn.getChild "*" with
     | some w => w.paramKeys.length == 1
     | none => false))

mutual

/-- `nodeOk` on the node and, recursively, on every descendant. -/
def wfNode : TrieNode → Bool
  | .mk children d np wp pk e k sk hs rn =>
    nodeOk (.mk children d np wp pk e k sk hs rn) && wfChildren children

/-- `wfNode` on every child of the list. -/
def wfChildren : List (String × TrieNode) → Bool
  | [] => true
  | (_, c) :: rest => wfNode c && wfChildren rest

end

/-- The last node of the chain `n :: ancestors` (the trie root during a
search descent). -/
def lastNode : TrieNode → List TrieNode → TrieNode
  | n, [] => n
  | _, a :: rest => lastNode a rest

/-- `wfNode` unfolds to `nodeOk` plus `wfChildren`. -/
theorem wfNode_eq (n : TrieNode) : wfNode n = (nodeOk n && wfChildren n.children) := by
  cases n
  rfl

/-- A child delivered by the map lookup of a well-formed child list is
well-formed. -/
theorem wfChildren_lookup :
    ∀ (l : List (String × TrieNode)) (s : String) (c : TrieNode),
      lookupChild l s = some c → wfChildren l = true → wfNode c = true := by
  intro l
  induction l with
  | nil => intro s c hl; cases hl
  | cons p rest ih =>
    intro s c hl hwf
    rcases p with ⟨k, c0⟩
    rw [wfChildren] at hwf
    rw [lookupChild] at hl
    by_cases hk : k = s
    · rw [if_pos hk] at hl
      injection hl with hl
      subst hl
      exact (Bool.and_eq_true_iff.mp hwf).1
    · rw [if_neg hk] at hl
      exact ih s c hl (Bool.and_eq_true_iff.mp hwf).2

/-- A child of a well-formed node is well-formed. -/
theorem wfNode_getChild {n : TrieNode} {s : String} {c : TrieNode}
    (hwf : wfNode n = true) (hc : n.getChild s = some c) : wfNode c = true := by
  rw [wfNode_eq] at hwf
  exact wfChildren_lookup n.children s c hc (Bool.and_eq_true_iff.mp hwf).2

/-- A well-formed node satisfies `nodeOk`. -/
theorem wfNode_nodeOk {n : TrieNode} (hwf : wfNode n = true) : nodeOk n = true := by
  rw [wfNode_eq] at hwf
  exact (Bool.and_eq_true_iff.mp hwf).1

/-- `nodeOk` delivers the `:` child when the named flag is set. -/
theorem nodeOk_named {n : TrieNode} (hok : nodeOk n = true)
    (hnp : n.childNamedParameter = true) : ∃ c, n.getChild ":" = some c := by
  rw [nodeOk, Bool.and_eq_true_iff] at hok
  have h1 := hok.1
  rw [hnp] at h1
  simp only [Bool.not_true, Bool.false_or] at h1
  rcases hgc : n.getChild ":" with _ | c
  · rw [hgc] at h1
    cases h1
  · exact ⟨c, rfl⟩

/-- `nodeOk` delivers the `*` child with its single parameter key when
the wildcard flag is set. -/
theorem nodeOk_wild {n : TrieNode} (hok : nodeOk n = true)
    (hwp : n.childWildcardParameter = true) :
    ∃ w k, n.getChild "*" = some w ∧ w.paramKeys = [k] := by
  rw [nodeOk, Bool.and_eq_true_iff] at hok
  have h2 := hok.2
  rw [hwp] at h2
  simp only [Bool.not_true, Bool.false_or] at h2
  rcases hgc : n.getChild "*" with _ | w
  · rw [hgc] at h2
    cases h2
  · rw [hgc] at h2
    have h2' : (w.paramKeys.length == 1) = true := h2
    rw [beq_iff_eq] at h2'
    rcases hpk : w.paramKeys with _ | ⟨k, rest⟩
    · rw [hpk] at h2'
      simp at h2'
    · rcases rest with _ | ⟨k2, ks⟩
      · exact ⟨w, k, rfl, hpk⟩
      · rw [hpk] at h2'
        simp at h2'

/-- The ancestor walk of a chain of `nodeOk` nodes either fails with
every flag down, or delivers a wildcard node carrying exactly one
parameter key. -/
theorem findClosest_cases (l : List TrieNode) (hok : ∀ a ∈ l, nodeOk a = true) :
    (findClosestParentWildcardNode l = none ∧
      ∀ a ∈ l, a.childWildcardParameter = false) ∨
    (∃ w k, findClosestParentWildcardNode l = some w ∧ w.paramKeys = [k]) := by
  induction l with
  | nil => exact Or.inl ⟨rfl, by intro a ha; cases ha⟩
  | cons tn rest ih =>
    by_cases hwp : tn.childWildcardParameter = true
    · right
      obtain ⟨w, k, hw, hk⟩ := nodeOk_wild (hok tn (by simp)) hwp
      refine ⟨w, k, ?_, hk⟩
      rw [findClosestParentWildcardNode, if_pos hwp]
      exact hw
    · rcases ih (fun a ha => hok a (by simp [ha])) with ⟨hnone, hflags⟩ | ⟨w, k, hw, hk⟩
      · left
        refine ⟨?_, ?_⟩
        · rw [findClosestParentWildcardNode, if_neg hwp]
          exact hnone
        · intro a ha
          rcases List.mem_cons.mp ha with ha | ha
          · subst ha
            exact Bool.not_eq_true _ ▸ (by simpa using hwp)
          · exact hflags a ha
      · right
        refine ⟨w, k, ?_, hk⟩
        rw [findClosestParentWildcardNode, if_neg hwp]
        exact hw

/-- The last node of a non-empty ancestor list is one of its members. -/
theorem lastNode_mem : ∀ (l : List TrieNode) (n a : TrieNode), lastNode n (a :: l) ∈ a :: l := by
  intro l
  induction l with
  | nil => intro n a; simp [lastNode]
  | cons b rest ih =>
    intro n a
    rw [lastNode]
    exact List.mem_cons_of_mem a (ih a b)

/-- One unfolding of `splitChar` in terms of the first segment
(`takeWhile`) and the rest of the scan (`dropWhile`): the shape the
search loop consumes. -/
theorem splitChar_unfold (suffix : List Char) :
    splitChar '/' suffix =
      String.mk (suffix.takeWhile (fun c => c ≠ '/')) ::
        (match suffix.dropWhile (fun c => c ≠ '/') with
         | [] => ([] : List String)
         | _ :: t => splitChar '/' t) := by
  induction suffix with
  | nil => rfl
  | cons c rest ih =>
    by_cases hc : c = '/'
    · subst hc
      have h1 : List.takeWhile (fun c => c ≠ '/') ('/' :: rest) = ([] : List Char) := by
        simp [List.takeWhile_cons]
      have h2 : List.dropWhile (fun c => c ≠ '/') ('/' :: rest) = '/' :: rest := by
        simp [List.dropWhile_cons]
      rw [h1, h2, show splitChar '/' ('/' :: rest) = "" :: splitChar '/' rest from by
        simp [splitChar]]
    · have h1 : List.takeWhile (fun x => x ≠ '/') (c :: rest) =
          c :: List.takeWhile (fun x => x ≠ '/') rest := by
        simp [List.takeWhile_cons, hc]
      have h2 : List.dropWhile (fun x => x ≠ '/') (c :: rest) =
          List.dropWhile (fun x => x ≠ '/') rest := by
        simp [List.dropWhile_cons, hc]
      rw [h1, h2, show splitChar '/' (c :: rest) =
          (match splitChar '/' rest with
           | [] => [String.mk [c]]
           | t :: ts => String.mk (c :: t.data) :: ts) from by simp [splitChar, hc]]
      rw [ih]

/-- `splitChar` never produces the empty list. -/
theorem splitChar_ne_nil (suffix : List Char) : splitChar '/' suffix ≠ [] := by
  rw [splitChar_unfold]
  exact List.cons_ne_nil _ _

/-- The first character dropped by the segment scan is the separator. -/
theorem dropWhile_head_slash :
    ∀ (l : List Char) (d : Char) (t : List Char),
      l.dropWhile (fun c => c ≠ '/') = d :: t → d = '/' := by
  intro l
  induction l with
  | nil => intro d t h; cases h
  | cons a as ih =>
    intro d t h
    rw [List.dropWhile_cons] at h
    by_cases ha : a = '/'
    · rw [if_neg (by simp [ha])] at h
      injection h with h1 _
      rw [← h1]
      exact ha
    · rw [if_pos (by simp [ha])] at h
      exact ih d t h

/-- Splitting at `/` and rejoining with `/` is the identity: the joined
remainder of the unconsumed segments is the unconsumed suffix itself. -/
theorem joinChar_splitChar_fuel :
    ∀ (fuel : Nat) (suffix : List Char), suffix.length ≤ fuel →
      joinChar '/' (splitChar '/' suffix) = suffix := by
  intro fuel
  induction fuel with
  | zero =>
    intro suffix hlen
    have hs : suffix = [] := List.length_eq_zero.mp (by omega)
    subst hs
    rfl
  | succ nf ih =>
    intro suffix hlen
    rw [splitChar_unfold]
    rcases hdw : suffix.dropWhile (fun c => c ≠ '/') with _ | ⟨d, t⟩
    · have htw : suffix.takeWhile (fun c => c ≠ '/') = suffix := by
        have hsplit := List.takeWhile_append_dropWhile
          (p := fun c : Char => decide (c ≠ '/')) (l := suffix)
        rw [hdw, List.append_nil] at hsplit
        exact hsplit
      show joinChar '/' [String.mk (suffix.takeWhile (fun c => c ≠ '/'))] = suffix
      simp only [joinChar]
      exact htw
    · have hd : d = '/' := dropWhile_head_slash suffix d t hdw
      subst hd
      have hterm : t.length < suffix.length := by
        have h1 := dropWhileLenLe (fun c : Char => decide (c ≠ '/')) suffix
        rw [hdw] at h1
        simp only [List.length_cons] at h1
        omega
      have ihm := ih t (by omega)
      show joinChar '/' (String.mk (suffix.takeWhile (fun c => c ≠ '/')) :: splitChar '/' t) =
        suffix
      rcases hsp : splitChar '/' t with _ | ⟨t0, ts⟩
      · exact absurd hsp (splitChar_ne_nil t)
      · rw [hsp] at ihm
        simp only [joinChar]
        rw [ihm]
        have hsplit := List.takeWhile_append_dropWhile
          (p := fun c : Char => decide (c ≠ '/')) (l := suffix)
        rw [hdw] at hsplit
        exact hsplit

/-- Split/join identity, stated without the fuel. -/
theorem joinChar_splitChar (suffix : List Char) :
    joinChar '/' (splitChar '/' suffix) = suffix :=
  joinChar_splitChar_fuel suffix.length suffix (le_refl _)

/-- On a well-formed chain, the search epilogue at a reached node agrees
with the claim's rule for a reached node (terminal: return with the
collected values; non-terminal: nearest-ancestor wildcard fallback). -/
theorem searchEnd_eq_claimDone (rootWild : Bool) (root : TrieNode) (q : String)
    (child : TrieNode) (parents : List TrieNode) (pv : List String) (params : ParamStore)
    (hok : ∀ a ∈ child :: parents, nodeOk a = true)
    (hlast : lastNode child parents = root)
    (hroot : rootWild = true → root.childWildcardParameter = true) :
    trieSearchEnd rootWild root q child parents pv params =
      claimDone rootWild root q child parents pv params := by
  rw [trieSearchEnd, claimDone]
  by_cases hend : child.isEnd = true
  · rw [if_pos hend, if_pos hend]
  · rw [if_neg hend, if_neg hend, claimFallback]
    have hokp : ∀ a ∈ parents, nodeOk a = true :=
      fun a ha => hok a (List.mem_cons_of_mem _ ha)
    rcases findClosest_cases parents hokp with ⟨hnone, hflags⟩ | ⟨w, k, hw, hk⟩
    · simp only [hnone, searchEndNil]
      by_cases hrw : rootWild = true
      · rw [if_pos hrw, if_pos hrw]
        rcases parents with _ | ⟨a, rest⟩
        · have hcr : child = root := hlast
          subst hcr
          obtain ⟨w, k, hw, hk⟩ := nodeOk_wild (hok child (by simp)) (hroot hrw)
          simp only [hw, hk]
          rfl
        · have hm := lastNode_mem rest child a
          rw [hlast] at hm
          exact absurd (hroot hrw) (by simp [hflags root hm])
      · rw [if_neg hrw, if_neg hrw]
    · simp only [hw, hk]
      rfl

/-- One step of the scanning loop agrees with one step of the claim's
segment resolution, given the agreement on the rest of the scan. -/
theorem loop_step (rootWild : Bool) (root : TrieNode) (q : String)
    (suffix : List Char) (n : TrieNode) (ancestors : List TrieNode)
    (pv : List String) (params : ParamStore)
    (hwf : wfNode n = true)
    (hanc : ∀ a ∈ ancestors, nodeOk a = true)
    (hlast : lastNode n ancestors = root)
    (hroot : rootWild = true → root.childWildcardParameter = true)
    (hrec : ∀ (child : TrieNode) (pv1 : List String),
      wfNode child = true →
      (suffix.dropWhile (fun c => c ≠ '/')) ≠ [] →
      trieSearchLoop rootWild root q child (n :: ancestors)
          (suffix.dropWhile (fun c => c ≠ '/')).tail pv1 params =
        claimLoop rootWild root q child (n :: ancestors)
          (splitChar '/' ((suffix.dropWhile (fun c => c ≠ '/')).tail)) pv1 params) :
    trieSearchLoop rootWild root q n ancestors suffix pv params =
      claimLoop rootWild root q n ancestors (splitChar '/' suffix) pv params := by
  have hchain : ∀ a ∈ n :: ancestors, nodeOk a = true := by
    intro a ha
    rcases List.mem_cons.mp ha with ha | ha
    · subst ha; exact wfNode_nodeOk hwf
    · exact hanc a ha
  rw [splitChar_unfold, trieSearchLoop, claimLoop]
  rcases hgc : n.getChild (String.mk (suffix.takeWhile (fun c => c ≠ '/'))) with _ | child
  · -- no literal child
    by_cases hnp : n.childNamedParameter = true
    · obtain ⟨cn, hcn⟩ := nodeOk_named (wfNode_nodeOk hwf) hnp
      rw [if_pos hnp, if_pos hnp]
      simp only [hcn]
      have hwfc : wfNode cn = true := wfNode_getChild hwf hcn
      rcases hdw : suffix.dropWhile (fun c => c ≠ '/') with _ | ⟨d, t⟩
      · rw [dif_pos rfl]
        exact searchEnd_eq_claimDone rootWild root q cn (n :: ancestors) _ params
          (fun a ha => by
            rcases List.mem_cons.mp ha with ha | ha
            · subst ha; exact wfNode_nodeOk hwfc
            · exact hchain a ha)
          hlast hroot
      · rw [dif_neg (List.cons_ne_nil d t)]
        have h := hrec cn (pv ++ [String.mk (suffix.takeWhile (fun c => c ≠ '/'))]) hwfc
          (by rw [hdw]; exact List.cons_ne_nil d t)
        rw [hdw] at h
        simp only [List.tail_cons] at h
        simp only [List.tail_cons]
        rw [h]
        rcases hsp : splitChar '/' t with _ | ⟨s0, ss⟩
        · exact absurd hsp (splitChar_ne_nil t)
        · rfl
    · rw [if_neg hnp, if_neg hnp]
      by_cases hwp : n.childWildcardParameter = true
      · obtain ⟨w, k, hw, hk⟩ := nodeOk_wild (wfNode_nodeOk hwf) hwp
        rw [if_pos hwp, if_pos hwp]
        simp only [hw]
        have hwfw : wfNode w = true := wfNode_getChild hwf hw
        have hjoin : String.mk (joinChar '/'
            (String.mk (suffix.takeWhile (fun c => c ≠ '/')) ::
              (match suffix.dropWhile (fun c => c ≠ '/') with
               | [] => ([] : List String)
               | _ :: t => splitChar '/' t))) = String.mk suffix := by
          rw [← splitChar_unfold, joinChar_splitChar]
        rw [hjoin]
        exact searchEnd_eq_claimDone rootWild root q w (n :: ancestors) _ params
          (fun a ha => by
            rcases List.mem_cons.mp ha with ha | ha
            · subst ha; exact wfNode_nodeOk hwfw
            · exact hchain a ha)
          hlast hroot
      · rw [if_neg hwp, if_neg hwp, claimFallback]
        rcases findClosest_cases ancestors hanc with ⟨hnone, hflags⟩ | ⟨w, k, hfw, hk⟩
        · simp only [hnone]
          by_cases hrw : rootWild = true
          · exfalso
            rcases hanc0 : ancestors with _ | ⟨a, rest⟩
            · rw [hanc0] at hlast
              have hnr : n = root := hlast
              rw [← hnr] at hroot
              exact hwp (hroot hrw)
            · have hm := lastNode_mem rest n a
              rw [← hanc0] at hm
              rw [hlast] at hm
              have := hflags root hm
              rw [hroot hrw] at this
              cases this
          · rw [if_neg hrw]
        · simp only [hfw, hk]
          rfl
  · -- literal child
    have hwfc : wfNode child = true := wfNode_getChild hwf hgc
    rcases hdw : suffix.dropWhile (fun c => c ≠ '/') with _ | ⟨d, t⟩
    · exact searchEnd_eq_claimDone rootWild root q child (n :: ancestors) pv params
        (fun a ha => by
          rcases List.mem_cons.mp ha with ha | ha
          · subst ha; exact wfNode_nodeOk hwfc
          · exact hchain a ha)
        hlast hroot
    · have h := hrec child pv hwfc (by rw [hdw]; exact List.cons_ne_nil d t)
      rw [hdw] at h
      simp only [List.tail_cons] at h
      show trieSearchLoop rootWild root q child (n :: ancestors) t pv params =
        (match splitChar '/' t with
         | [] => claimDone rootWild root q child (n :: ancestors) pv params
         | _ :: _ =>
           claimLoop rootWild root q child (n :: ancestors) (splitChar '/' t) pv params)
      rcases hsp : splitChar '/' t with _ | ⟨s0, ss⟩
      · exact absurd hsp (splitChar_ne_nil t)
      · rw [hsp] at h
        exact h

/-- The scanning loop agrees with the claim's segment resolution on every
well-formed descent state (fuel-bounded induction on the suffix). -/
theorem loop_eq_claim_fuel (rootWild : Bool) (root : TrieNode) (q : String) :
    ∀ (fuel : Nat) (suffix : List Char) (n : TrieNode) (ancestors : List TrieNode)
      (pv : List String) (params : ParamStore),
      suffix.length ≤ fuel →
      wfNode n = true →
      (∀ a ∈ ancestors, nodeOk a = true) →
      lastNode n ancestors = root →
      (rootWild = true → root.childWildcardParameter = true) →
      trieSearchLoop rootWild root q n ancestors suffix pv params =
        claimLoop rootWild root q n ancestors (splitChar '/' suffix) pv params := by
  intro fuel
  induction fuel with
  | zero =>
    intro suffix n ancestors pv params hlen hwf hanc hlast hroot
    have hs : suffix = [] := List.length_eq_zero.mp (by omega)
    subst hs
    exact loop_step rootWild root q [] n ancestors pv params hwf hanc hlast hroot
      (fun child pv1 hchild hne => absurd rfl hne)
  | succ nf ih =>
    intro suffix n ancestors pv params hlen hwf hanc hlast hroot
    refine loop_step rootWild root q suffix n ancestors pv params hwf hanc hlast hroot ?_
    intro child pv1 hchild hne
    apply ih
    · have h1 := dropWhileLenLe (fun c : Char => decide (c ≠ '/')) suffix
      have h2 : (suffix.dropWhile (fun c => c ≠ '/')).length ≠ 0 := by
        simpa [List.length_eq_zero] using hne
      simp only [List.length_tail]
      omega
    · exact hchild
    · intro a ha
      rcases List.mem_cons.mp ha with ha | ha
      · subst ha; exact wfNode_nodeOk hwf
      · exact hanc a ha
    · exact hlast
    · exact hroot

/-- Claim C1: on every well-formed trie (each named/wildcard flag backed
by the corresponding child, wildcard nodes carrying exactly one parameter
key — the shape `insert` produces for registered routes whose only
dynamic segment is the trailing wildcard — and the root-wildcard flag
backed by a flagged root), searching any non-empty, non-root path equals
the claim's segment resolution: literal over named over wildcard at each
node, back-off to the nearest ancestor with a wildcard child binding its
single parameter to the remainder of `q` past the wildcard node's static
prefix, no-match only without such an ancestor and without a root
wildcard. -/
theorem search_matches_claim (tr : Trie) (q : String) (params : ParamStore)
    (hq : q ≠ "" ∧ q ≠ "/")
    (hwf : wfNode tr.root = true)
    (hroot : tr.hasRootWildcard = true → tr.root.childWildcardParameter = true) :
    tr.search q params = claimSearch tr q params := by
  rw [Trie.search, claimSearch]
  rw [if_neg ?hcond]
  case hcond =>
    rintro (hlen | ⟨hlen, hhead⟩)
    · apply hq.1
      apply String.ext
      rw [List.length_eq_zero.mp hlen]
    · apply hq.2
      apply String.ext
      rcases hd : q.data with _ | ⟨c, rest⟩
      · rw [hd] at hlen
        simp at hlen
      · rw [hd] at hlen hhead
        simp only [List.length_cons, List.headD_cons] at hlen hhead
        have hrest : rest = [] := List.length_eq_zero.mp (by omega)
        subst hrest
        subst hhead
        rfl
  exact loop_eq_claim_fuel tr.hasRootWildcard tr.root q (q.data.drop 1).length
    (q.data.drop 1) tr.root [] [] params (le_refl _) hwf
    (fun a ha => by cases ha) rfl hroot

/-- The spec's S1 route set on GET: two static/wildcard siblings and the
wildcard back-off pair. -/
def s1Trie : Trie :=
  ((((newTrie.insert "/assets/static" "r1" [1]).insert "/assets/*path" "r2" [2]).insert
    "/hello/*p" "r3" [3]).insert "/hello/:p1/static/:p2" "r4" [4])

/-- Witness for C1: on the S1 trie (well-formed, no root wildcard) the
search of `/hello/a` — the wildcard back-off case — equals the claim's
segment resolution. -/
theorem search_matches_claim_witness :
    (("/hello/a" : String) ≠ "" ∧ ("/hello/a" : String) ≠ "/") ∧
    wfNode s1Trie.root = true ∧
    s1Trie.search "/hello/a" [] = claimSearch s1Trie "/hello/a" [] :=
  ⟨⟨by decide, by decide⟩, by decide,
    search_matches_claim s1Trie "/hello/a" [] ⟨by decide, by decide⟩ (by decide) (by decide)⟩

end Iris
